import Mathlib

/-!
Verification of the gitroll-chat data-normalization core: the LinkedIn
profile schema/preprocessing pipeline (`src/schema/linkedin-profile.ts`,
profile API route) and the CSV ingestion pipeline
(`src/hooks/use-csv-upload.ts`), shallowly embedded over a JSON value model.
-/

namespace GitrollChat

/-- A JSON value as delivered to the pipelines (JS objects are ordered
association lists; an absent key models JS `undefined`). Numbers in every
input the pipelines inspect are integral, so `Int` suffices. -/
inductive Json where
  | null
  | bool (b : Bool)
  | num (n : Int)
  | str (s : String)
  | arr (elems : List Json)
  | obj (fields : List (String × Json))

/-- First-match key lookup in a JS object, like property access. -/
def lookupKey (k : String) : List (String × Json) → Option Json
  | [] => none
  | (k', v) :: rest => if k' = k then some v else lookupKey k rest

/-- Removing a key from a JS object (modelling setting it to `undefined`). -/
def eraseKey (k : String) : List (String × Json) → List (String × Json)
  | [] => []
  | p :: rest => if p.1 = k then eraseKey k rest else p :: eraseKey k rest

/-- Replace the value of every occurrence of key `k` by `v` (in-place update
of a JS object property). -/
def mapValue (k : String) (v : Json) : List (String × Json) → List (String × Json)
  | [] => []
  | p :: rest => (if p.1 = k then (k, v) else p) :: mapValue k v rest

/-- Strip leading and trailing whitespace (character-list `trim`,
implemented so that it evaluates inside Lean's kernel). -/
def trimChars (l : List Char) : List Char :=
  ((l.dropWhile Char.isWhitespace).reverse.dropWhile Char.isWhitespace).reverse

/-- `trim` on strings, via `trimChars`. -/
def strTrim (s : String) : String := String.mk (trimChars s.toList)

/-! ### CSV ingestion: row normalization (`src/hooks/use-csv-upload.ts`)

`Papa.parse` (external library) hands `uploadCSV`'s `complete` callback a
list of rows keyed by the canonicalized headers. A cell that the parser did
not populate is JS `undefined`, modelled as `none`; a populated cell is a
string. The `forEach` loop over `results.data` is embedded as a fold. -/

/-- A parsed CSV row after header canonicalization: each canonical field is
either absent (`none`, JS `undefined`/`null`) or a raw string cell. -/
structure RawRow where
  firstName : Option String
  lastName : Option String
  url : Option String
  emailAddress : Option String
  company : Option String
  position : Option String
  connectedOn : Option String
deriving DecidableEq

/-- The output entity of the CSV pipeline (interface `Contact`). -/
structure Contact where
  id : String
  firstName : String
  lastName : String
  url : String
  emailAddress : String
  company : String
  position : String
  connectedOn : String
deriving DecidableEq

/-- JS truthiness of a string-or-undefined cell: `undefined`, `null` and
`""` are falsy, every other string truthy (`!row.firstName` etc.). -/
def truthy : Option String → Bool
  | none => false
  | some s => s ≠ ""

/-- `row.x || ''`: null-ish (and empty) cells become the empty string;
everything else is copied verbatim. -/
def jsOr (v : Option String) : String :=
  match v with
  | none => ""
  | some s => s

/-- The retention test of the loop:
`!(!row.firstName && !row.lastName && !row.company)`. -/
def keepRow (r : RawRow) : Bool :=
  truthy r.firstName || truthy r.lastName || truthy r.company

/-- Contact construction for a retained row at index `i`;
`now` is the `Date.now()` timestamp fixed for the upload. -/
def mkContact (now i : Nat) (r : RawRow) : Contact :=
  { id := "contact-" ++ toString now ++ "-" ++ toString i
    firstName := jsOr r.firstName
    lastName := jsOr r.lastName
    url := jsOr r.url
    emailAddress := jsOr r.emailAddress
    company := jsOr r.company
    position := jsOr r.position
    connectedOn := jsOr r.connectedOn }

/-- The `results.data.forEach` loop of `uploadCSV`: rows failing the
retention test are skipped, every other row is pushed onto
`validContacts`. The index counter mirrors `forEach`'s second argument. -/
def buildContacts (now : Nat) (rows : List RawRow) : List Contact :=
  (rows.foldl
    (fun (acc : List Contact × Nat) row =>
      if keepRow row then (acc.1 ++ [mkContact now acc.2 row], acc.2 + 1)
      else (acc.1, acc.2 + 1))
    ([], 0)).1

/-- Following the spec's words (§4.4), for comparison with the source: the
claimed `cleanField` operation — null/undefined to empty string, trim, and
collapse of the literal tokens `null`, `undefined`, `N/A` to empty string.
No such operation exists in `use-csv-upload.ts`. -/
def cleanFieldSpec (v : Option String) : String :=
  match v with
  | none => ""
  | some s =>
    let t := strTrim s
    if t = "null" ∨ t = "undefined" ∨ t = "N/A" then "" else t

/-! ### CSV header locator

Modelled from the spec: the header-locator step that `uploadCSV` runs on
the raw file text before handing it to the delimited parser is not among
the source files (only its test, which checks that a `Notes:` preamble is
stripped before `Papa.parse` is invoked, is). The definitions below follow
§4.3 of the spec: skip empty / quote-wrapped / "note" lines, score the
rest (+2 per domain header pattern, +1 per generic CSV indicator, +3 for
≥4 non-empty comma parts), take the first strict-maximum line, and accept
it only at score ≥ 5. String primitives are implemented on character
lists so every definition evaluates inside Lean's kernel. -/

/-- Lower-casing on strings, character by character. -/
def strLower (s : String) : String := String.mk (s.toList.map Char.toLower)

/-- Substring containment on character lists. -/
def containsSub (pat : List Char) : List Char → Bool
  | [] => pat.isEmpty
  | c :: rest => pat.isPrefixOf (c :: rest) || containsSub pat rest

/-- Case-insensitive containment of a lowercase token in a string. -/
def containsToken (s pat : String) : Bool :=
  containsSub pat.toList (strLower s).toList

/-- Split a character list at a separator, keeping empty segments. -/
def splitOnChar (sep : Char) : List Char → List (List Char)
  | [] => [[]]
  | c :: cs =>
    let r := splitOnChar sep cs
    if c = sep then [] :: r
    else
      match r with
      | [] => [[c]]
      | h :: t => (c :: h) :: t

/-- Split file text into lines. -/
def splitLines (s : String) : List String :=
  (splitOnChar (Char.ofNat 10) s.toList).map String.mk

/-- Re-join lines with newlines (left inverse of `splitLines` on its
output). -/
def joinLines : List String → String
  | [] => ""
  | [l] => l
  | l :: ls => l ++ "\n" ++ joinLines ls

/-- Modelled from the spec (§4.3): candidate lines that are skipped
outright — empty, wrapped in double quotes, or containing the token
`note` case-insensitively (LinkedIn export preambles). -/
def lineSkipped (l : String) : Bool :=
  let t := (strTrim l).toList
  t.isEmpty ||
    (decide (2 ≤ t.length) && t.head? == some '"' && t.getLast? == some '"') ||
    containsToken l "note"

/-- The six domain header patterns, each worth +2. -/
def headerPatterns : List String :=
  ["first name", "email", "company", "position", "connected on", "url"]

/-- A `\w,\w`-style generic CSV indicator: some alphanumeric character
immediately followed by a comma and another alphanumeric character. -/
def hasWordCommaWord : List Char → Bool
  | a :: b :: c :: rest =>
    (a.isAlphanum && b == ',' && c.isAlphanum) ||
      hasWordCommaWord (b :: c :: rest)
  | _ => false

/-- Modelled from the spec (§4.3): the line score — +2 per matched domain
header pattern, +1 if the line contains a comma, +1 for the
word-comma-word shape, +3 if the line splits into ≥4 non-empty
comma-separated parts. -/
def scoreLine (l : String) : Nat :=
  2 * (headerPatterns.filter (fun pat => containsToken l pat)).length +
    (if l.toList.contains ',' then 1 else 0) +
    (if hasWordCommaWord l.toList then 1 else 0) +
    (if 4 ≤ ((splitOnChar ',' l.toList).filter
        (fun p => ¬(trimChars p).isEmpty)).length then 3 else 0)

/-- The left-to-right maximum scan: skipped lines are never scored, and
the best line index is updated only on a strictly greater score. -/
def goBest : List String → Nat → Nat → Option Nat → Nat × Option Nat
  | [], _, best, idx => (best, idx)
  | l :: ls, i, best, idx =>
    if lineSkipped l then goBest ls (i + 1) best idx
    else if best < scoreLine l then goBest ls (i + 1) (scoreLine l) (some i)
    else goBest ls (i + 1) best idx

/-- Modelled from the spec (§4.3): accept the best-scoring line as the
header only when its score reaches the fixed confidence threshold 5. -/
def findHeaderIndex (lines : List String) : Option Nat :=
  let r := goBest lines 0 0 none
  if 5 ≤ r.1 then r.2 else none

/-- Modelled from the spec (§4.3 contract): given raw file text, return
the text starting at the best-guess header line, or the original text
unchanged when no line reaches the confidence threshold. -/
def findCSVHeader (text : String) : String :=
  let lines := splitLines text
  match findHeaderIndex lines with
  | some i => joinLines (lines.drop i)
  | none => text

/-- A sample parser that records the text it was handed, to observe the
header locator's output through the parse result. -/
def tagParse (s : String) : List Contact :=
  [{ id := s, firstName := "", lastName := "", url := "",
     emailAddress := "", company := "", position := "", connectedOn := "" }]

/-! ### Profile schema (`src/schema/linkedin-profile.ts`)

The zod schemas are embedded as issue-collecting validators
`Json → Except (List Issue) Json`: `safeParse` either returns the parsed
(transformed) value or the complete list of path-tagged issues — object
and array validation collect issues from every field/item, a single
chain short-circuits, and a failed union contributes one `invalid_union`
issue. URL-syntax validity (`z.url()` / `new URL`, a platform primitive)
is abstracted as a boolean predicate `urlOk` threaded through the
validators. -/

/-- One step in a `ValidationIssue` path: an object key or array index. -/
inductive PathElem where
  | key (k : String)
  | idx (i : Nat)
deriving DecidableEq

/-- A zod `ValidationIssue`, reduced to the parts the pipeline's contract
exposes: the path locating the failing field and a machine code. -/
structure Issue where
  path : List PathElem
  code : String
deriving DecidableEq

/-- A validation outcome: the parsed value or the full issue list. -/
abbrev VResult := Except (List Issue) Json

/-- Prefix every issue's path with an object key. -/
def atKey (k : String) (es : List Issue) : List Issue :=
  es.map (fun e => ⟨PathElem.key k :: e.path, e.code⟩)

/-- Prefix every issue's path with an array index. -/
def atIdx (i : Nat) (es : List Issue) : List Issue :=
  es.map (fun e => ⟨PathElem.idx i :: e.path, e.code⟩)

def invalidType : List Issue := [⟨[], "invalid_type"⟩]

def vString : Json → VResult
  | .str s => .ok (.str s)
  | _ => .error invalidType

def vNumber : Json → VResult
  | .num n => .ok (.num n)
  | _ => .error invalidType

def vBool : Json → VResult
  | .bool b => .ok (.bool b)
  | _ => .error invalidType

def vNull : Json → VResult
  | .null => .ok .null
  | _ => .error invalidType

/-- `z.any()` accepts everything. -/
def vAny (j : Json) : VResult := .ok j

/-- `z.url()`: a string passing URL-syntax validation. -/
def vUrl (urlOk : String → Bool) : Json → VResult
  | .str s =>
    if urlOk s then .ok (.str s) else .error [⟨[], "invalid_format"⟩]
  | _ => .error invalidType

/-- `.nullable()`: `null` passes through, everything else is validated. -/
def vNullable (v : Json → VResult) : Json → VResult
  | .null => .ok .null
  | j => v j

/-- Item-wise array validation, collecting index-tagged issues. -/
def vArrayItems (v : Json → VResult) : List Json → Nat → List Issue × List Json
  | [], _ => ([], [])
  | x :: xs, i =>
    let r := vArrayItems v xs (i + 1)
    match v x with
    | .ok y => (r.1, y :: r.2)
    | .error es => (atIdx i es ++ r.1, r.2)

/-- `z.array(T)`: every item validated, all issues collected. -/
def vArray (v : Json → VResult) : Json → VResult
  | .arr xs =>
    let r := vArrayItems v xs 0
    if r.1.isEmpty then .ok (.arr r.2) else .error r.1
  | _ => .error invalidType

/-- `.or`: options tried left to right; if all fail the union contributes
a single `invalid_union` issue. -/
def vUnion (opts : List (Json → VResult)) (j : Json) : VResult :=
  match opts with
  | [] => .error [⟨[], "invalid_union"⟩]
  | v :: rest =>
    match v j with
    | .ok y => .ok y
    | .error _ => vUnion rest j

/-- One object field: absence is an issue only for a required field;
issues of a present field are tagged with its key. On success the parsed
field (empty for an absent optional) is produced. -/
def fieldResultG (name : String) (required : Bool) (v : Json → VResult)
    (fs : List (String × Json)) :
    Except (List Issue) (List (String × Json)) :=
  match lookupKey name fs with
  | none =>
    if required then .error [⟨[PathElem.key name], "invalid_type"⟩]
    else .ok []
  | some x =>
    match v x with
    | .ok y => .ok [(name, y)]
    | .error es => .error (atKey name es)

/-- A field of a `z.object`: key, required flag, validator. -/
abbrev FieldSpecG := String × Bool × (Json → VResult)

/-- All issues of an object's declared fields, in declaration order. -/
def objErrs (specs : List FieldSpecG) (fs : List (String × Json)) :
    List Issue :=
  match specs with
  | [] => []
  | s :: rest =>
    (match fieldResultG s.1 s.2.1 s.2.2 fs with
     | .ok _ => []
     | .error es => es) ++ objErrs rest fs

/-- The parsed fields of an object, in declaration order (unknown keys are
stripped, zod's default). -/
def objOuts (specs : List FieldSpecG) (fs : List (String × Json)) :
    List (String × Json) :=
  match specs with
  | [] => []
  | s :: rest =>
    (match fieldResultG s.1 s.2.1 s.2.2 fs with
     | .ok kvs => kvs
     | .error _ => []) ++ objOuts rest fs

/-- `z.object`: validates every declared field, collecting all issues. -/
def vObjectG (specs : List FieldSpecG) : Json → VResult
  | .obj fs =>
    match objErrs specs fs with
    | [] => .ok (.obj (objOuts specs fs))
    | es => .error es
  | _ => .error invalidType

/-- The `EducationSchema.url` / `PositionSchema.companyURL` chain:
`z.string().transform("" to null).pipe(z.url().nullable())
 .or(z.literal("")).or(z.null()).transform(coerce-unparseable-to-null)`.
The outer transform runs only when the union succeeds; for a non-empty
string that fails URL parsing every union branch fails, so the chain
errors before the coercing transform is reached. -/
def urlChain (urlOk : String → Bool) (j : Json) : VResult :=
  let unionRes : VResult :=
    match j with
    | .str s =>
      if s = "" then .ok .null
      else if urlOk s then .ok (.str s)
      else .error [⟨[], "invalid_union"⟩]
    | .null => .ok .null
    | _ => .error [⟨[], "invalid_union"⟩]
  match unionRes with
  | .error es => .error es
  | .ok v =>
    match v with
    | .null => .ok .null
    | .str s =>
      if s = "" then .ok .null
      else .ok (if urlOk s then .str s else .null)
    | other => .ok other

def vDate : Json → VResult :=
  vObjectG
    [("year", true, vNumber), ("month", true, vNumber), ("day", true, vNumber)]

def vBackgroundImage (urlOk : String → Bool) : Json → VResult :=
  vObjectG
    [("width", true, vNumber), ("height", true, vNumber),
     ("url", true, vUrl urlOk)]

def vGeo : Json → VResult :=
  vObjectG
    [("country", true, vString), ("city", true, vString),
     ("full", true, vString), ("countryCode", false, vString)]

def vLanguage : Json → VResult :=
  vObjectG [("name", true, vString), ("proficiency", false, vString)]

def vLogo (urlOk : String → Bool) : Json → VResult :=
  vObjectG
    [("url", true, vUrl urlOk), ("width", true, vNumber),
     ("height", true, vNumber)]

def vEducation (urlOk : String → Bool) : Json → VResult :=
  vObjectG
    [("start", true, vDate), ("end", true, vDate),
     ("fieldOfStudy", true, vString), ("degree", true, vString),
     ("grade", true, vString), ("schoolName", true, vString),
     ("description", true, vString), ("activities", true, vString),
     ("url", true, urlChain urlOk), ("schoolId", true, vString),
     ("logo", false, vNullable (vArray (vLogo urlOk)))]

def vMultiLocaleEnUS : Json → VResult :=
  vObjectG [("en_US", false, vString)]

def vPosition (urlOk : String → Bool) : Json → VResult :=
  vObjectG
    [("companyId", false, vNumber), ("companyName", false, vString),
     ("companyUsername", false, vString),
     ("companyURL", false, urlChain urlOk),
     ("companyLogo", false, vString), ("companyIndustry", false, vString),
     ("companyStaffCountRange", false, vString), ("title", false, vString),
     ("multiLocaleTitle", false, vMultiLocaleEnUS),
     ("multiLocaleCompanyName", false, vMultiLocaleEnUS),
     ("location", false, vString), ("locationType", false, vString),
     ("description", false, vString), ("employmentType", false, vString),
     ("start", false, vDate), ("end", false, vDate)]

def vSkill : Json → VResult :=
  vObjectG
    [("name", true, vString), ("passedSkillAssessment", true, vBool),
     ("endorsementsCount", false, vNumber)]

def vCourse : Json → VResult :=
  vObjectG [("name", true, vString), ("number", true, vString)]

def vCertCompany : Json → VResult :=
  vObjectG
    [("name", true, vString), ("universalName", true, vString),
     ("logo", false, vString), ("staffCountRange", false, vObjectG []),
     ("headquarter", false, vObjectG [])]

def vTimePeriod : Json → VResult :=
  vObjectG [("start", false, vDate), ("end", false, vDate)]

def vCertification : Json → VResult :=
  vObjectG
    [("name", true, vString), ("start", false, vDate),
     ("end", false, vDate), ("authority", false, vString),
     ("company", false, vCertCompany), ("timePeriod", false, vTimePeriod)]

def vVolunteering (urlOk : String → Bool) : Json → VResult :=
  vObjectG
    [("title", true, vString), ("start", false, vDate),
     ("end", false, vDate), ("companyName", false, vString),
     ("CompanyId", false, vString), ("companyUrl", false, vUrl urlOk),
     ("companyLogo", false, vString)]

def vMultiLocaleString : Json → VResult :=
  vObjectG [("en", false, vString), ("en_US", false, vString)]

def vProjects : Json → VResult :=
  vObjectG
    [("total", true, vNumber),
     ("items", false, vUnion [vNull, vArray vAny])]

def vSupportedLocale : Json → VResult :=
  vObjectG [("country", true, vString), ("language", true, vString)]

/-- The distinct field-validator shapes of `LinkedInProfileSchema`, as
plain data so that the field table below has decidable equality. -/
inductive FKind where
  | numK | strK | boolK | urlK | bgArrK | geoK | languagesK | educationsK
  | positionsK | skillsK | nullK | coursesK | certsK | honorsK | projectsK
  | volunteeringK | localesK | multiLocaleK
deriving DecidableEq

/-- One top-level field of `LinkedInProfileSchema`. -/
structure FieldSpec where
  name : String
  required : Bool
  kind : FKind
deriving DecidableEq

/-- Interpretation of a field kind as a validator. -/
def fkindVal (urlOk : String → Bool) : FKind → Json → VResult
  | .numK => vNumber
  | .strK => vString
  | .boolK => vBool
  | .urlK => vUrl urlOk
  | .bgArrK => vArray (vBackgroundImage urlOk)
  | .geoK => vGeo
  | .languagesK => vUnion [vNull, vArray vString, vArray vLanguage]
  | .educationsK => vArray (vEducation urlOk)
  | .positionsK => vArray (vPosition urlOk)
  | .skillsK => vNullable (vArray vSkill)
  | .nullK => vNull
  | .coursesK => vNullable (vArray vCourse)
  | .certsK => vNullable (vArray vCertification)
  | .honorsK => vUnion [vNull, vArray vAny]
  | .projectsK => vProjects
  | .volunteeringK => vNullable (vArray (vVolunteering urlOk))
  | .localesK => vArray vSupportedLocale
  | .multiLocaleK => vMultiLocaleString

/-- The field table of `LinkedInProfileSchema`, in source order. -/
def profileFields : List FieldSpec :=
  [⟨"id", false, .numK⟩, ⟨"urn", false, .strK⟩,
   ⟨"username", false, .strK⟩, ⟨"firstName", false, .strK⟩,
   ⟨"lastName", false, .strK⟩, ⟨"isPremium", false, .boolK⟩,
   ⟨"isCreator", false, .boolK⟩, ⟨"isOpenToWork", true, .boolK⟩,
   ⟨"isHiring", true, .boolK⟩, ⟨"isPrime", false, .boolK⟩,
   ⟨"profilePicture", false, .urlK⟩, ⟨"backgroundImage", false, .bgArrK⟩,
   ⟨"summary", false, .strK⟩, ⟨"headline", false, .strK⟩,
   ⟨"geo", false, .geoK⟩, ⟨"languages", false, .languagesK⟩,
   ⟨"educations", false, .educationsK⟩, ⟨"position", false, .positionsK⟩,
   ⟨"fullPositions", false, .positionsK⟩, ⟨"skills", false, .skillsK⟩,
   ⟨"givenRecommendation", false, .nullK⟩,
   ⟨"givenRecommendationCount", true, .numK⟩,
   ⟨"receivedRecommendation", false, .nullK⟩,
   ⟨"receivedRecommendationCount", true, .numK⟩,
   ⟨"courses", false, .coursesK⟩, ⟨"certifications", false, .certsK⟩,
   ⟨"honors", false, .honorsK⟩, ⟨"projects", true, .projectsK⟩,
   ⟨"volunteering", false, .volunteeringK⟩,
   ⟨"supportedLocales", false, .localesK⟩,
   ⟨"multiLocaleFirstName", false, .multiLocaleK⟩,
   ⟨"multiLocaleLastName", false, .multiLocaleK⟩,
   ⟨"multiLocaleHeadline", false, .multiLocaleK⟩]

def toSpecG (urlOk : String → Bool) (s : FieldSpec) : FieldSpecG :=
  (s.name, s.required, fkindVal urlOk s.kind)

/-- `LinkedInProfileSchema.safeParse` on a preprocessed value. -/
def validateProfile (urlOk : String → Bool) (j : Json) : VResult :=
  vObjectG (profileFields.map (toSpecG urlOk)) j

/-- The declared-optional top-level fields of the profile schema. -/
def optionalProfileFields : List String :=
  (profileFields.filter (fun s => !s.required)).map (fun s => s.name)

/-- Whether a validation succeeded (`safeParse(...).success`). -/
def isOkV : VResult → Bool
  | .ok _ => true
  | .error _ => false

/-- The issue list of a validation (`[]` on success). -/
def issuesOf : VResult → List Issue
  | .ok _ => []
  | .error es => es

/-- A concrete URL-syntax predicate for closed evaluations: accepts
exactly the sample URL used by the spec's scenarios. -/
def demoUrlOk (s : String) : Bool := s == "https://x.com/a.jpg"

/-- The spec's baseline minimal profile object (§8 concrete scenarios). -/
def baselineFields : List (String × Json) :=
  [("firstName", .str "John"), ("lastName", .str "Doe"),
   ("headline", .str "SWE"),
   ("profilePicture", .str "https://x.com/a.jpg"),
   ("isOpenToWork", .bool false), ("isHiring", .bool false),
   ("givenRecommendationCount", .num 0),
   ("receivedRecommendationCount", .num 0),
   ("projects", .obj [("total", .num 0), ("items", .null)])]

/-- The baseline with `isOpenToWork` replaced by the string `"true"`. -/
def baselineBadFields : List (String × Json) :=
  [("firstName", .str "John"), ("lastName", .str "Doe"),
   ("headline", .str "SWE"),
   ("profilePicture", .str "https://x.com/a.jpg"),
   ("isOpenToWork", .str "true"), ("isHiring", .bool false),
   ("givenRecommendationCount", .num 0),
   ("receivedRecommendationCount", .num 0),
   ("projects", .obj [("total", .num 0), ("items", .null)])]

/-- A well-formed date triple. -/
def dateJson : Json :=
  .obj [("year", .num 2020), ("month", .num 1), ("day", .num 1)]

/-- A complete education record parameterized by its `url` cell. -/
def eduFields (url : Json) : List (String × Json) :=
  [("start", dateJson), ("end", dateJson), ("fieldOfStudy", .str "CS"),
   ("degree", .str "BS"), ("grade", .str "A"), ("schoolName", .str "U"),
   ("description", .str ""), ("activities", .str ""), ("url", url),
   ("schoolId", .str "1")]

/-! ### Preprocessing stage and route wiring

Modelled from the spec: the profile API route
(`app/api/get-profile-data-by-url/route.ts`), which runs the
preprocessing stage of §4.2 and then `LinkedInProfileSchema.safeParse`,
is not among the source files — only its callers
(`use-linkedin-profile.ts`) and its integration tests are. The
definitions below follow §4.2 (boolean, nullable-collection, count and
`projects` defaulting, per-position `companyLogo` sanitization) and §6
(the validation-failure wire shape). -/

/-- Set `fs[k] = v` only when `k` is absent (a defaulting assignment). -/
def setDefault (k : String) (v : Json) (fs : List (String × Json)) :
    List (String × Json) :=
  match lookupKey k fs with
  | some _ => fs
  | none => fs ++ [(k, v)]

/-- The collections defaulted to `null` when absent (§4.2). -/
def nullableCollectionKeys : List String :=
  ["languages", "skills", "courses", "certifications", "honors",
   "volunteering", "givenRecommendation", "receivedRecommendation"]

/-- All scalar defaults of §4.2: flags to `false`, collections to
`null`, recommendation counts to `0`. -/
def defaultPairs : List (String × Json) :=
  [("isOpenToWork", .bool false), ("isHiring", .bool false)] ++
    nullableCollectionKeys.map (fun k => (k, Json.null)) ++
    [("givenRecommendationCount", .num 0),
     ("receivedRecommendationCount", .num 0)]

/-- Apply a list of defaulting assignments left to right. -/
def setDefaults (pairs : List (String × Json))
    (fs : List (String × Json)) : List (String × Json) :=
  pairs.foldl (fun acc kv => setDefault kv.1 kv.2 acc) fs

/-- The canonical default for an absent `projects` object. -/
def defaultProjects : Json := .obj [("total", .num 0), ("items", .null)]

/-- Fill the missing sub-fields of a present `projects` object. -/
def fillProjectsInner (pfs : List (String × Json)) :
    List (String × Json) :=
  setDefault "items" .null (setDefault "total" (.num 0) pfs)

/-- `projects` defaulting: absent object becomes
`{total: 0, items: null}`, a present partial object has its missing
sub-fields filled with the same defaults. -/
def fillProjects (fs : List (String × Json)) : List (String × Json) :=
  match lookupKey "projects" fs with
  | none => fs ++ [("projects", defaultProjects)]
  | some (.obj pfs) => mapValue "projects" (.obj (fillProjectsInner pfs)) fs
  | some _ => fs

/-- Per-position logo sanitization: a `companyLogo` value that fails
URL-syntax parsing is replaced with the empty string (§4.2). -/
def sanitizePosition (urlOk : String → Bool) (p : Json) : Json :=
  match p with
  | .obj pfs =>
    match lookupKey "companyLogo" pfs with
    | none => .obj pfs
    | some (.str s) =>
      if urlOk s then .obj pfs
      else .obj (mapValue "companyLogo" (.str "") pfs)
    | some _ => .obj (mapValue "companyLogo" (.str "") pfs)
  | other => other

/-- Apply logo sanitization to every entry of the `position` array. -/
def sanitizeLogos (urlOk : String → Bool) (fs : List (String × Json)) :
    List (String × Json) :=
  match lookupKey "position" fs with
  | some (.arr xs) =>
    mapValue "position" (.arr (xs.map (sanitizePosition urlOk))) fs
  | _ => fs

/-- The full preprocessing stage of §4.2 on an object's fields. -/
def preprocessFields (urlOk : String → Bool)
    (fs : List (String × Json)) : List (String × Json) :=
  sanitizeLogos urlOk (fillProjects (setDefaults defaultPairs fs))

/-- The preprocessing stage on a raw profile value (non-objects are
passed through untouched, to fail in validation). -/
def preprocess (urlOk : String → Bool) : Json → Json
  | .obj fs => .obj (preprocessFields urlOk fs)
  | other => other

/-- The §6 validation-failure wire shape:
`{error, details, rawData}`. -/
structure WireFailure where
  error : String
  details : List Issue
  rawData : Json

/-- Modelled from the spec: the route's core — preprocess, validate,
and either return the typed profile or the discriminated failure value
carrying the complete issue list and the preprocessed object. -/
def handleProfileData (urlOk : String → Bool) (raw : Json) :
    Except WireFailure Json :=
  let pre := preprocess urlOk raw
  match validateProfile urlOk pre with
  | .ok typed => .ok typed
  | .error issues =>
    .error { error := "Validation failed", details := issues, rawData := pre }

theorem lookupKey_eraseKey_self (k : String) (fs : List (String × Json)) :
    lookupKey k (eraseKey k fs) = none := by
  induction fs with
  | nil => rfl
  | cons p rest ih =>
    by_cases h : p.1 = k
    · simpa [eraseKey, h] using ih
    · simpa [eraseKey, h, lookupKey] using ih

theorem lookupKey_eraseKey_ne (k g : String) (fs : List (String × Json))
    (h : g ≠ k) : lookupKey g (eraseKey k fs) = lookupKey g fs := by
  induction fs with
  | nil => rfl
  | cons p rest ih =>
    by_cases hp : p.1 = k
    · have hg : ¬p.1 = g := by rw [hp]; exact fun hq => h hq.symm
      rw [eraseKey, if_pos hp, lookupKey, if_neg hg]
      exact ih
    · rw [eraseKey, if_neg hp, lookupKey, lookupKey]
      by_cases hg : p.1 = g
      · rw [if_pos hg, if_pos hg]
      · rw [if_neg hg, if_neg hg]
        exact ih

theorem lookupKey_mapValue_self (k : String) (v : Json)
    (fs : List (String × Json)) :
    lookupKey k (mapValue k v fs) = (lookupKey k fs).map (fun _ => v) := by
  induction fs with
  | nil => rfl
  | cons p rest ih =>
    by_cases hp : p.1 = k
    · rw [mapValue, if_pos hp, lookupKey, if_pos rfl, lookupKey, if_pos hp]
      rfl
    · rw [mapValue, if_neg hp, lookupKey, if_neg hp, lookupKey, if_neg hp]
      exact ih

theorem lookupKey_mapValue_ne (k g : String) (v : Json)
    (fs : List (String × Json)) (h : g ≠ k) :
    lookupKey g (mapValue k v fs) = lookupKey g fs := by
  induction fs with
  | nil => rfl
  | cons p rest ih =>
    by_cases hp : p.1 = k
    · have hkg : ¬k = g := fun hq => h hq.symm
      have hpg : ¬p.1 = g := by rw [hp]; exact hkg
      rw [mapValue, if_pos hp, lookupKey, if_neg hkg, lookupKey, if_neg hpg]
      exact ih
    · rw [mapValue, if_neg hp, lookupKey, lookupKey]
      by_cases hg : p.1 = g
      · rw [if_pos hg, if_pos hg]
      · rw [if_neg hg, if_neg hg]
        exact ih

theorem lookupKey_append (k : String) (fs gs : List (String × Json)) :
    lookupKey k (fs ++ gs) =
      match lookupKey k fs with
      | some v => some v
      | none => lookupKey k gs := by
  induction fs with
  | nil => rfl
  | cons p rest ih =>
    by_cases hp : p.1 = k
    · simp [lookupKey, hp]
    · simp [lookupKey, hp, ih]

/-- Loop invariant for `buildContacts`: the fold starting from an
accumulator appends exactly the kept rows of the remaining enumerated
suffix. -/
theorem buildContacts_fold (now : Nat) (rows : List RawRow)
    (acc : List Contact) (i : Nat) :
    (rows.foldl
      (fun (a : List Contact × Nat) row =>
        if keepRow row then (a.1 ++ [mkContact now a.2 row], a.2 + 1)
        else (a.1, a.2 + 1))
      (acc, i)).1 =
    acc ++ ((rows.enumFrom i).filter (fun p => keepRow p.2)).map
      (fun p => mkContact now p.1 p.2) := by
  induction rows generalizing acc i with
  | nil => simp [List.enumFrom]
  | cons r rest ih =>
    by_cases hk : keepRow r
    · simp only [List.foldl, hk, if_pos, List.enumFrom, List.filter, List.map]
      rw [ih]
      simp [hk]
    · simp only [List.foldl, hk, if_neg, List.enumFrom, List.filter, List.map]
      rw [ih]
      simp [hk]

/-- `buildContacts` in closed form: exactly the rows passing `keepRow`
survive, in order, with their index-derived ids. -/
theorem buildContacts_eq_filter (now : Nat) (rows : List RawRow) :
    buildContacts now rows =
      ((rows.enumFrom 0).filter (fun p => keepRow p.2)).map
        (fun p => mkContact now p.1 p.2) := by
  unfold buildContacts
  exact buildContacts_fold now rows [] 0

theorem goBest_skipped_run (pre : List String)
    (hskip : ∀ l ∈ pre, lineSkipped l = true) (ls : List String)
    (i b : Nat) (idx : Option Nat) :
    goBest (pre ++ ls) i b idx = goBest ls (i + pre.length) b idx := by
  induction pre generalizing i with
  | nil => simp
  | cons p rest ih =>
    have hp : lineSkipped p = true := hskip p (List.mem_cons_self p rest)
    have hrest : ∀ l ∈ rest, lineSkipped l = true :=
      fun l hl => hskip l (List.mem_cons_of_mem p hl)
    rw [List.cons_append, goBest, if_pos hp, ih hrest]
    congr 1
    simp only [List.length_cons]
    omega

theorem goBest_shift (ls : List String) (i k b : Nat) (idx : Option Nat) :
    goBest ls (i + k) b (idx.map (· + k)) =
      ((goBest ls i b idx).1, (goBest ls i b idx).2.map (· + k)) := by
  induction ls generalizing i b idx with
  | nil => rfl
  | cons l rest ih =>
    rw [goBest, goBest]
    by_cases hs : lineSkipped l
    · rw [if_pos hs, if_pos hs]
      have : i + k + 1 = (i + 1) + k := by omega
      rw [this, ih]
    · rw [if_neg hs, if_neg hs]
      by_cases hb : b < scoreLine l
      · rw [if_pos hb, if_pos hb]
        have h1 : i + k + 1 = (i + 1) + k := by omega
        have h2 : (some (i + k) : Option Nat) = (some i).map (· + k) := rfl
        rw [h1, h2, ih]
      · rw [if_neg hb, if_neg hb]
        have : i + k + 1 = (i + 1) + k := by omega
        rw [this, ih]

theorem goBest_best_le (ls : List String) (i b : Nat) (idx : Option Nat) :
    b ≤ (goBest ls i b idx).1 := by
  induction ls generalizing i b idx with
  | nil => exact Nat.le_refl b
  | cons l rest ih =>
    rw [goBest]
    by_cases hs : lineSkipped l
    · rw [if_pos hs]; exact ih _ _ _
    · rw [if_neg hs]
      by_cases hb : b < scoreLine l
      · rw [if_pos hb]
        exact Nat.le_trans (Nat.le_of_lt hb) (ih _ _ _)
      · rw [if_neg hb]; exact ih _ _ _

theorem goBest_score_le (ls : List String) (l : String) (hl : l ∈ ls)
    (hns : lineSkipped l = false) (i b : Nat) (idx : Option Nat) :
    scoreLine l ≤ (goBest ls i b idx).1 := by
  induction ls generalizing i b idx with
  | nil => cases hl
  | cons hd rest ih =>
    rw [goBest]
    rcases List.mem_cons.mp hl with heq | hmem
    · subst heq
      rw [if_neg (by simp [hns])]
      by_cases hb : b < scoreLine l
      · rw [if_pos hb]
        exact goBest_best_le _ _ _ _
      · rw [if_neg hb]
        exact Nat.le_trans (Nat.le_of_not_lt hb) (goBest_best_le _ _ _ _)
    · by_cases hs : lineSkipped hd
      · rw [if_pos hs]; exact ih hmem _ _ _
      · rw [if_neg hs]
        by_cases hb : b < scoreLine hd
        · rw [if_pos hb]; exact ih hmem _ _ _
        · rw [if_neg hb]; exact ih hmem _ _ _

theorem goBest_cases (ls : List String) (i b : Nat) (idx : Option Nat) :
    goBest ls i b idx = (b, idx) ∨ ∃ j, (goBest ls i b idx).2 = some j := by
  induction ls generalizing i b idx with
  | nil => exact Or.inl rfl
  | cons l rest ih =>
    rw [goBest]
    by_cases hs : lineSkipped l
    · rw [if_pos hs]; exact ih _ _ _
    · rw [if_neg hs]
      by_cases hb : b < scoreLine l
      · rw [if_pos hb]
        rcases ih (i + 1) (scoreLine l) (some i) with heq | hex
        · exact Or.inr ⟨i, by rw [heq]⟩
        · exact Or.inr hex
      · rw [if_neg hb]; exact ih _ _ _

theorem drop_append_length {α : Type} (l₁ l₂ : List α) (j : Nat) :
    (l₁ ++ l₂).drop (j + l₁.length) = l₂.drop j := by
  induction l₁ with
  | nil => simp
  | cons a rest ih =>
    have : j + (a :: rest).length = (j + rest.length) + 1 := by
      simp [List.length_cons]; omega
    rw [this, List.cons_append, List.drop_succ_cons, ih]

/-- C2: prepending 1–10 skipped (non-CSV) preamble lines to a block whose
own lines contain a confident header line does not change the text the
header locator returns, hence any downstream delimited parse produces an
identical Contact list. -/
theorem csv_header_locator_stability (text blockText : String)
    (pre block : List String)
    (ht : splitLines text = pre ++ block)
    (hb : splitLines blockText = block)
    (_hlen1 : 1 ≤ pre.length) (_hlen10 : pre.length ≤ 10)
    (hskip : ∀ l ∈ pre, lineSkipped l = true)
    (hgood : ∃ l ∈ block, lineSkipped l = false ∧ 5 ≤ scoreLine l) :
    ∀ parse : String → List Contact,
      parse (findCSVHeader text) = parse (findCSVHeader blockText) := by
  intro parse
  suffices h : findCSVHeader text = findCSVHeader blockText by rw [h]
  obtain ⟨lg, hlg, hlgns, hlgscore⟩ := hgood
  have h5 : 5 ≤ (goBest block 0 0 none).1 :=
    Nat.le_trans hlgscore (goBest_score_le block lg hlg hlgns 0 0 none)
  obtain ⟨j, hj⟩ : ∃ j, (goBest block 0 0 none).2 = some j := by
    rcases goBest_cases block 0 0 none with heq | hex
    · rw [heq] at h5
      exact absurd h5 (by omega)
    · exact hex
  have hfull : goBest (pre ++ block) 0 0 none =
      ((goBest block 0 0 none).1, some (j + pre.length)) := by
    rw [goBest_skipped_run pre hskip block 0 0 none]
    have hshift := goBest_shift block 0 pre.length 0 none
    have hnone : (Option.map (· + pre.length) (none : Option Nat)) = none := rfl
    rw [hnone] at hshift
    rw [hshift, hj]
    rfl
  have hfi_block : findHeaderIndex block = some j := by
    unfold findHeaderIndex
    rw [if_pos h5, hj]
  have hfi_full : findHeaderIndex (pre ++ block) = some (j + pre.length) := by
    unfold findHeaderIndex
    rw [hfull, if_pos h5]
  unfold findCSVHeader
  rw [ht, hb]
  simp only [hfi_block, hfi_full]
  rw [drop_append_length pre block j]

/-- Witness for C2 at a concrete LinkedIn-style export: one `note`
preamble line before a header+data block. -/
theorem csv_header_locator_stability_witness :
    tagParse
      (findCSVHeader
        "one note\nFirst Name,Email,Company,Position\nJohn,j,Acme,CEO") =
    tagParse
      (findCSVHeader "First Name,Email,Company,Position\nJohn,j,Acme,CEO") :=
  csv_header_locator_stability
    "one note\nFirst Name,Email,Company,Position\nJohn,j,Acme,CEO"
    "First Name,Email,Company,Position\nJohn,j,Acme,CEO"
    ["one note"]
    ["First Name,Email,Company,Position", "John,j,Acme,CEO"]
    (by decide) (by decide) (by decide) (by decide)
    (by
      intro l hl
      simp only [List.mem_singleton] at hl
      subst hl
      decide)
    ⟨"First Name,Email,Company,Position", by decide, by decide, by decide⟩
    tagParse

/-- C3 counterexample: a row whose `firstName` is whitespace-only and
whose `company` is the null-like token `N/A` — every one of the three key
fields cleans to empty, so the claim says the row is dropped — is
nevertheless retained by `uploadCSV`, whose retention test uses raw JS
truthiness, not cleaned values. -/
theorem csv_retention_counterexample :
    cleanFieldSpec (some "   ") = "" ∧
    cleanFieldSpec (some "") = "" ∧
    cleanFieldSpec (some "N/A") = "" ∧
    (buildContacts 0
      [{ firstName := some "   ", lastName := some "", url := none,
         emailAddress := none, company := some "N/A", position := some "CEO",
         connectedOn := none }]).length = 1 := by
  refine ⟨by decide, by decide, by decide, by decide⟩

/-- C3 amended: a parsed row appears in the output Contact list iff at
least one of its raw `firstName`, `lastName`, `company` cells is a
present, non-empty string (JS truthiness); retained rows are emitted in
order with `row.x || ''` field copying and index-derived ids. -/
theorem csv_retention_amended (now : Nat) (rows : List RawRow) :
    buildContacts now rows =
      ((rows.enumFrom 0).filter (fun p => keepRow p.2)).map
        (fun p => mkContact now p.1 p.2) :=
  buildContacts_eq_filter now rows

/-- C4: `uploadCSV` applies no `cleanField` operation — the literal
tokens `N/A` and `null`, which the claim (and the repository's own hook
test) require to collapse to the empty string, are copied verbatim into
the emitted Contact. -/
theorem csv_no_cleanField_on_tokens :
    buildContacts 0
      [{ firstName := none, lastName := none, url := some "N/A",
         emailAddress := none, company := some "Tech Corp", position := none,
         connectedOn := some "null" }] =
      [{ id := "contact-0-0", firstName := "", lastName := "", url := "N/A",
         emailAddress := "", company := "Tech Corp", position := "",
         connectedOn := "null" }] ∧
    cleanFieldSpec (some "N/A") = "" ∧
    cleanFieldSpec (some "null") = "" := by
  refine ⟨by decide, by decide, by decide⟩

/-- C6: the baseline minimal profile validates with no issues, and the
same object with `isOpenToWork` set to the string `"true"` fails with
exactly one issue, whose path is `["isOpenToWork"]`. -/
theorem strict_boolean_flags :
    isOkV (validateProfile demoUrlOk (.obj baselineFields)) = true ∧
    isOkV (validateProfile demoUrlOk (.obj baselineBadFields)) = false ∧
    issuesOf (validateProfile demoUrlOk (.obj baselineBadFields)) =
      [⟨[.key "isOpenToWork"], "invalid_type"⟩] := by
  refine ⟨by decide, by decide, by decide⟩

/-- C1: the URL-tolerance chain of `EducationSchema.url` /
`PositionSchema.companyURL` normalizes `""` to `null` and keeps a valid
URL, but on a syntactically invalid non-empty string every union branch
fails, so the chain — and with it the whole education record — is
rejected with an `invalid_union` issue instead of the value being
coerced to `null` (the coercing transform after the union is
unreachable for such inputs). -/
theorem urlChain_rejects_invalid_url :
    urlChain demoUrlOk (.str "") = .ok .null ∧
    urlChain demoUrlOk (.str "https://x.com/a.jpg") =
      .ok (.str "https://x.com/a.jpg") ∧
    urlChain demoUrlOk (.str "not a url") =
      .error [⟨[], "invalid_union"⟩] ∧
    isOkV (vEducation demoUrlOk (.obj (eduFields (.str "")))) = true ∧
    isOkV (vEducation demoUrlOk (.obj (eduFields (.str "not a url")))) =
      false ∧
    issuesOf (vEducation demoUrlOk (.obj (eduFields (.str "not a url")))) =
      [⟨[.key "url"], "invalid_union"⟩] := by
  refine ⟨rfl, rfl, rfl, by decide, by decide, by decide⟩

theorem fieldResultG_eraseKey_ne (name : String) (req : Bool)
    (v : Json → VResult) (f : String) (fs : List (String × Json))
    (h : name ≠ f) :
    fieldResultG name req v (eraseKey f fs) = fieldResultG name req v fs := by
  unfold fieldResultG
  rw [lookupKey_eraseKey_ne f name fs h]

theorem fieldResultG_eraseKey_optional (name : String)
    (v : Json → VResult) (fs : List (String × Json)) :
    fieldResultG name false v (eraseKey name fs) = .ok [] := by
  unfold fieldResultG
  rw [lookupKey_eraseKey_self]
  simp

theorem objErrs_eraseKey (specs : List FieldSpecG) (f : String)
    (fs : List (String × Json))
    (hopt : ∀ s ∈ specs, s.1 = f → s.2.1 = false)
    (h : objErrs specs fs = []) : objErrs specs (eraseKey f fs) = [] := by
  induction specs with
  | nil => rfl
  | cons s rest ih =>
    rw [objErrs] at h ⊢
    obtain ⟨h1, h2⟩ := List.append_eq_nil.mp h
    have hrest : ∀ t ∈ rest, t.1 = f → t.2.1 = false :=
      fun t ht => hopt t (List.mem_cons_of_mem s ht)
    by_cases hname : s.1 = f
    · have hreq : s.2.1 = false := hopt s (List.mem_cons_self s rest) hname
      rw [hname, hreq, fieldResultG_eraseKey_optional]
      simp [ih hrest h2]
    · rw [fieldResultG_eraseKey_ne s.1 s.2.1 s.2.2 f fs hname, h1]
      simp [ih hrest h2]

theorem isOkV_vObjectG (specs : List FieldSpecG)
    (fs : List (String × Json)) :
    isOkV (vObjectG specs (.obj fs)) = true ↔ objErrs specs fs = [] := by
  cases h : objErrs specs fs with
  | nil => simp [vObjectG, h, isOkV]
  | cons e es => simp [vObjectG, h, isOkV]

/-- The optional/required split of the profile field table is coherent:
no optional field name is also declared required. -/
theorem profileFields_optional_consistent :
    ∀ f ∈ optionalProfileFields,
      ∀ t ∈ profileFields, t.name = f → t.required = false := by decide

/-- C9: monotonic tolerance of the profile schema — removing (setting to
`undefined`) any single declared-optional top-level field of an object
that validates successfully yields an object that still validates
successfully. -/
theorem optional_fields_monotone (urlOk : String → Bool) (f : String)
    (hf : f ∈ optionalProfileFields) (fs : List (String × Json))
    (h : isOkV (validateProfile urlOk (.obj fs)) = true) :
    isOkV (validateProfile urlOk (.obj (eraseKey f fs))) = true := by
  have hopt : ∀ s ∈ profileFields.map (toSpecG urlOk),
      s.1 = f → s.2.1 = false := by
    intro s hs hname
    obtain ⟨t, ht, rfl⟩ := List.mem_map.mp hs
    exact profileFields_optional_consistent f hf t ht hname
  unfold validateProfile at h ⊢
  rw [isOkV_vObjectG] at h ⊢
  exact objErrs_eraseKey _ f fs hopt h

/-- Witness for C9: removing the optional `firstName` from the validated
baseline profile still validates. -/
theorem optional_fields_monotone_witness :
    isOkV (validateProfile demoUrlOk
      (.obj (eraseKey "firstName" baselineFields))) = true :=
  optional_fields_monotone demoUrlOk "firstName" (by decide)
    baselineFields (by decide)

theorem lookup_setDefault_self (k : String) (v : Json)
    (fs : List (String × Json)) :
    lookupKey k (setDefault k v fs) = some ((lookupKey k fs).getD v) := by
  unfold setDefault
  cases h : lookupKey k fs with
  | some w => simp [h]
  | none => simp [h, lookupKey_append, lookupKey]

theorem lookup_setDefault_ne (k g : String) (v : Json)
    (fs : List (String × Json)) (h : g ≠ k) :
    lookupKey g (setDefault k v fs) = lookupKey g fs := by
  unfold setDefault
  cases hk : lookupKey k fs with
  | some w => simp [hk]
  | none =>
    simp only [hk, lookupKey_append]
    cases hg : lookupKey g fs with
    | some w => rfl
    | none =>
      simp only [lookupKey]
      rw [if_neg (fun e => h e.symm)]

theorem setDefaults_cons (p : String × Json) (rest : List (String × Json))
    (fs : List (String × Json)) :
    setDefaults (p :: rest) fs = setDefaults rest (setDefault p.1 p.2 fs) :=
  rfl

theorem lookup_setDefaults (pairs : List (String × Json)) (k : String)
    (fs : List (String × Json)) :
    lookupKey k (setDefaults pairs fs) =
      match lookupKey k fs with
      | some v => some v
      | none => (pairs.find? (fun p => p.1 == k)).map (fun p => p.2) := by
  induction pairs generalizing fs with
  | nil =>
    cases h : lookupKey k fs <;> simp [setDefaults, h]
  | cons p rest ih =>
    rw [setDefaults_cons, ih]
    by_cases hpk : p.1 = k
    · rw [hpk, lookup_setDefault_self]
      have hbeq : (p.1 == k) = true := beq_iff_eq.mpr hpk
      cases h : lookupKey k fs with
      | some w => simp [h, List.find?]
      | none => simp [h, List.find?, hbeq]
    · rw [lookup_setDefault_ne p.1 k p.2 fs (fun e => hpk e.symm)]
      have hbeq : (p.1 == k) = false := beq_eq_false_iff_ne.mpr hpk
      cases h : lookupKey k fs with
      | some w => simp [h]
      | none => simp [h, List.find?, hbeq]

theorem lookup_fillProjects_ne (g : String) (fs : List (String × Json))
    (h : g ≠ "projects") :
    lookupKey g (fillProjects fs) = lookupKey g fs := by
  unfold fillProjects
  cases hp : lookupKey "projects" fs with
  | none =>
    simp only [lookupKey_append]
    cases hg : lookupKey g fs with
    | some w => rfl
    | none =>
      simp only [lookupKey]
      rw [if_neg (fun e => h e.symm)]
  | some v =>
    cases v with
    | obj pfs => exact lookupKey_mapValue_ne "projects" g _ fs h
    | null => rfl
    | bool b => rfl
    | num n => rfl
    | str s => rfl
    | arr xs => rfl

theorem lookup_fillProjects_self (fs : List (String × Json)) :
    lookupKey "projects" (fillProjects fs) =
      some (match lookupKey "projects" fs with
        | none => defaultProjects
        | some (.obj qfs) => .obj (fillProjectsInner qfs)
        | some v => v) := by
  unfold fillProjects
  cases hp : lookupKey "projects" fs with
  | none =>
    simp only [hp, lookupKey_append, lookupKey]
    rfl
  | some v =>
    cases v with
    | obj pfs =>
      simp only [hp]
      rw [lookupKey_mapValue_self, hp]
      rfl
    | null => simp [hp]
    | bool b => simp [hp]
    | num n => simp [hp]
    | str s => simp [hp]
    | arr xs => simp [hp]

theorem lookup_sanitizeLogos_ne (urlOk : String → Bool) (g : String)
    (fs : List (String × Json)) (h : g ≠ "position") :
    lookupKey g (sanitizeLogos urlOk fs) = lookupKey g fs := by
  unfold sanitizeLogos
  cases hp : lookupKey "position" fs with
  | none => rfl
  | some v =>
    cases v with
    | arr xs => exact lookupKey_mapValue_ne "position" g _ fs h
    | null => rfl
    | bool b => rfl
    | num n => rfl
    | str s => rfl
    | obj pfs => rfl

theorem lookup_preprocessFields_defaulted (urlOk : String → Bool)
    (fs : List (String × Json)) (k : String) (d : Json)
    (h1 : k ≠ "position") (h2 : k ≠ "projects")
    (h3 : defaultPairs.find? (fun p => p.1 == k) = some (k, d)) :
    lookupKey k (preprocessFields urlOk fs) =
      some ((lookupKey k fs).getD d) := by
  unfold preprocessFields
  rw [lookup_sanitizeLogos_ne urlOk k _ h1, lookup_fillProjects_ne k _ h2,
    lookup_setDefaults]
  cases h : lookupKey k fs with
  | some w => simp
  | none => simp [h3]

/-- C7: the preprocessing stage fills every canonical default of §4.2
for absent fields and keeps present values: flags default to `false`,
the eight nullable collections to `null`, the recommendation counts to
`0`, an absent `projects` to the default object (total 0, items null),
and a present
`projects` object has its missing `total`/`items` filled with the same
defaults. -/
theorem preprocessing_fills_defaults (urlOk : String → Bool)
    (fs pfs : List (String × Json)) :
    lookupKey "isOpenToWork" (preprocessFields urlOk fs) =
      some ((lookupKey "isOpenToWork" fs).getD (.bool false)) ∧
    lookupKey "isHiring" (preprocessFields urlOk fs) =
      some ((lookupKey "isHiring" fs).getD (.bool false)) ∧
    lookupKey "languages" (preprocessFields urlOk fs) =
      some ((lookupKey "languages" fs).getD .null) ∧
    lookupKey "skills" (preprocessFields urlOk fs) =
      some ((lookupKey "skills" fs).getD .null) ∧
    lookupKey "courses" (preprocessFields urlOk fs) =
      some ((lookupKey "courses" fs).getD .null) ∧
    lookupKey "certifications" (preprocessFields urlOk fs) =
      some ((lookupKey "certifications" fs).getD .null) ∧
    lookupKey "honors" (preprocessFields urlOk fs) =
      some ((lookupKey "honors" fs).getD .null) ∧
    lookupKey "volunteering" (preprocessFields urlOk fs) =
      some ((lookupKey "volunteering" fs).getD .null) ∧
    lookupKey "givenRecommendation" (preprocessFields urlOk fs) =
      some ((lookupKey "givenRecommendation" fs).getD .null) ∧
    lookupKey "receivedRecommendation" (preprocessFields urlOk fs) =
      some ((lookupKey "receivedRecommendation" fs).getD .null) ∧
    lookupKey "givenRecommendationCount" (preprocessFields urlOk fs) =
      some ((lookupKey "givenRecommendationCount" fs).getD (.num 0)) ∧
    lookupKey "receivedRecommendationCount" (preprocessFields urlOk fs) =
      some ((lookupKey "receivedRecommendationCount" fs).getD (.num 0)) ∧
    lookupKey "projects" (preprocessFields urlOk fs) =
      some (match lookupKey "projects" fs with
        | none => defaultProjects
        | some (.obj qfs) => .obj (fillProjectsInner qfs)
        | some v => v) ∧
    lookupKey "total" (fillProjectsInner pfs) =
      some ((lookupKey "total" pfs).getD (.num 0)) ∧
    lookupKey "items" (fillProjectsInner pfs) =
      some ((lookupKey "items" pfs).getD .null) := by
  refine ⟨?_, ?_, ?_, ?_, ?_, ?_, ?_, ?_, ?_, ?_, ?_, ?_, ?_, ?_, ?_⟩
  · exact lookup_preprocessFields_defaulted urlOk fs _ _
      (by decide) (by decide) (by rfl)
  · exact lookup_preprocessFields_defaulted urlOk fs _ _
      (by decide) (by decide) (by rfl)
  · exact lookup_preprocessFields_defaulted urlOk fs _ _
      (by decide) (by decide) (by rfl)
  · exact lookup_preprocessFields_defaulted urlOk fs _ _
      (by decide) (by decide) (by rfl)
  · exact lookup_preprocessFields_defaulted urlOk fs _ _
      (by decide) (by decide) (by rfl)
  · exact lookup_preprocessFields_defaulted urlOk fs _ _
      (by decide) (by decide) (by rfl)
  · exact lookup_preprocessFields_defaulted urlOk fs _ _
      (by decide) (by decide) (by rfl)
  · exact lookup_preprocessFields_defaulted urlOk fs _ _
      (by decide) (by decide) (by rfl)
  · exact lookup_preprocessFields_defaulted urlOk fs _ _
      (by decide) (by decide) (by rfl)
  · exact lookup_preprocessFields_defaulted urlOk fs _ _
      (by decide) (by decide) (by rfl)
  · exact lookup_preprocessFields_defaulted urlOk fs _ _
      (by decide) (by decide) (by rfl)
  · exact lookup_preprocessFields_defaulted urlOk fs _ _
      (by decide) (by decide) (by rfl)
  · unfold preprocessFields
    rw [lookup_sanitizeLogos_ne urlOk _ _ (by decide),
      lookup_fillProjects_self]
    have hfind :
        defaultPairs.find? (fun p => p.1 == "projects") = none := rfl
    have hset : lookupKey "projects" (setDefaults defaultPairs fs) =
        lookupKey "projects" fs := by
      rw [lookup_setDefaults]
      cases h : lookupKey "projects" fs with
      | some w => simp
      | none => simp [hfind]
    rw [hset]
  · unfold fillProjectsInner
    rw [lookup_setDefault_ne "items" "total" _ _ (by decide),
      lookup_setDefault_self]
  · unfold fillProjectsInner
    rw [lookup_setDefault_self,
      lookup_setDefault_ne "total" "items" _ _ (by decide)]

theorem setDefault_of_isSome (k : String) (v : Json)
    (fs : List (String × Json)) (h : (lookupKey k fs).isSome = true) :
    setDefault k v fs = fs := by
  unfold setDefault
  cases hk : lookupKey k fs with
  | some w => simp
  | none => rw [hk] at h; simp at h

theorem setDefaults_of_isSome (pairs : List (String × Json))
    (fs : List (String × Json))
    (h : ∀ p ∈ pairs, (lookupKey p.1 fs).isSome = true) :
    setDefaults pairs fs = fs := by
  induction pairs with
  | nil => rfl
  | cons p rest ih =>
    rw [setDefaults_cons,
      setDefault_of_isSome p.1 p.2 fs (h p (List.mem_cons_self p rest))]
    exact ih (fun q hq => h q (List.mem_cons_of_mem p hq))

theorem mapValue_all (k : String) (v : Json) (fs : List (String × Json)) :
    ∀ p ∈ mapValue k v fs, p.1 = k → p.2 = v := by
  induction fs with
  | nil => intro p hp; cases hp
  | cons q rest ih =>
    intro p hp hk
    rw [mapValue] at hp
    rcases List.mem_cons.mp hp with heq | hmem
    · by_cases hq : q.1 = k
      · rw [if_pos hq] at heq; rw [heq]
      · rw [if_neg hq] at heq; rw [heq] at hk; exact absurd hk hq
    · exact ih p hmem hk

theorem mapValue_id (k : String) (v : Json) (fs : List (String × Json))
    (h : ∀ p ∈ fs, p.1 = k → p.2 = v) : mapValue k v fs = fs := by
  induction fs with
  | nil => rfl
  | cons q rest ih =>
    rw [mapValue]
    have hrest := ih (fun p hp => h p (List.mem_cons_of_mem q hp))
    by_cases hq : q.1 = k
    · have hv : q.2 = v := h q (List.mem_cons_self q rest) hq
      rw [if_pos hq, hrest, ← hq, ← hv]
    · rw [if_neg hq, hrest]

theorem mapValue_mapValue (k : String) (v w : Json)
    (fs : List (String × Json)) :
    mapValue k v (mapValue k w fs) = mapValue k v fs := by
  induction fs with
  | nil => rfl
  | cons q rest ih =>
    by_cases hq : q.1 = k
    · simp [mapValue, hq, ih]
    · simp [mapValue, hq, ih]

theorem mem_mapValue_ne (k : String) (v : Json)
    (fs : List (String × Json)) (p : String × Json)
    (hp : p ∈ mapValue k v fs) (hne : p.1 ≠ k) : p ∈ fs := by
  induction fs with
  | nil => cases hp
  | cons q rest ih =>
    rw [mapValue] at hp
    rcases List.mem_cons.mp hp with heq | hmem
    · by_cases hq : q.1 = k
      · rw [if_pos hq] at heq
        rw [heq] at hne
        exact absurd rfl hne
      · rw [if_neg hq] at heq
        exact heq ▸ List.mem_cons_self q rest
    · exact List.mem_cons_of_mem q (ih hmem)

theorem lookupKey_none_forall (k : String) (fs : List (String × Json))
    (h : lookupKey k fs = none) : ∀ p ∈ fs, p.1 ≠ k := by
  induction fs with
  | nil => intro p hp; cases hp
  | cons q rest ih =>
    intro p hp
    rw [lookupKey] at h
    by_cases hq : q.1 = k
    · rw [if_pos hq] at h; cases h
    · rw [if_neg hq] at h
      rcases List.mem_cons.mp hp with heq | hmem
      · rw [heq]; exact hq
      · exact ih h p hmem

theorem lookup_setDefault_isSome (k : String) (v : Json)
    (fs : List (String × Json)) :
    (lookupKey k (setDefault k v fs)).isSome = true := by
  rw [lookup_setDefault_self]; rfl

theorem fillProjectsInner_idem (pfs : List (String × Json)) :
    fillProjectsInner (fillProjectsInner pfs) = fillProjectsInner pfs := by
  unfold fillProjectsInner
  have htotal : (lookupKey "total"
      (setDefault "items" Json.null
        (setDefault "total" (Json.num 0) pfs))).isSome = true := by
    rw [lookup_setDefault_ne "items" "total" _ _ (by decide)]
    exact lookup_setDefault_isSome _ _ _
  rw [setDefault_of_isSome _ _ _ htotal]
  have hitems : (lookupKey "items"
      (setDefault "items" Json.null
        (setDefault "total" (Json.num 0) pfs))).isSome = true :=
    lookup_setDefault_isSome _ _ _
  exact setDefault_of_isSome _ _ _ hitems

theorem sanitizePosition_mapped (urlOk : String → Bool)
    (pfs : List (String × Json)) :
    sanitizePosition urlOk
        (Json.obj (mapValue "companyLogo" (Json.str "") pfs)) =
      Json.obj (mapValue "companyLogo" (Json.str "") pfs) := by
  cases hl : lookupKey "companyLogo" pfs with
  | none => simp [sanitizePosition, lookupKey_mapValue_self, hl]
  | some v =>
    simp only [sanitizePosition, lookupKey_mapValue_self, hl,
      Option.map_some']
    by_cases he : urlOk ""
    · simp [he]
    · simp [he, mapValue_mapValue]

theorem sanitizePosition_idem (urlOk : String → Bool) (p : Json) :
    sanitizePosition urlOk (sanitizePosition urlOk p) =
      sanitizePosition urlOk p := by
  cases p with
  | obj pfs =>
    cases hl : lookupKey "companyLogo" pfs with
    | none => simp [sanitizePosition, hl]
    | some v =>
      cases v with
      | str s =>
        by_cases hu : urlOk s
        · simp [sanitizePosition, hl, hu]
        · have hred : sanitizePosition urlOk (Json.obj pfs) =
              Json.obj (mapValue "companyLogo" (Json.str "") pfs) := by
            simp [sanitizePosition, hl, hu]
          rw [hred]
          exact sanitizePosition_mapped urlOk pfs
      | null =>
        have hred : sanitizePosition urlOk (Json.obj pfs) =
            Json.obj (mapValue "companyLogo" (Json.str "") pfs) := by
          simp [sanitizePosition, hl]
        rw [hred]
        exact sanitizePosition_mapped urlOk pfs
      | bool b =>
        have hred : sanitizePosition urlOk (Json.obj pfs) =
            Json.obj (mapValue "companyLogo" (Json.str "") pfs) := by
          simp [sanitizePosition, hl]
        rw [hred]
        exact sanitizePosition_mapped urlOk pfs
      | num n =>
        have hred : sanitizePosition urlOk (Json.obj pfs) =
            Json.obj (mapValue "companyLogo" (Json.str "") pfs) := by
          simp [sanitizePosition, hl]
        rw [hred]
        exact sanitizePosition_mapped urlOk pfs
      | arr xs =>
        have hred : sanitizePosition urlOk (Json.obj pfs) =
            Json.obj (mapValue "companyLogo" (Json.str "") pfs) := by
          simp [sanitizePosition, hl]
        rw [hred]
        exact sanitizePosition_mapped urlOk pfs
      | obj qfs =>
        have hred : sanitizePosition urlOk (Json.obj pfs) =
            Json.obj (mapValue "companyLogo" (Json.str "") pfs) := by
          simp [sanitizePosition, hl]
        rw [hred]
        exact sanitizePosition_mapped urlOk pfs
  | null => rfl
  | bool b => rfl
  | num n => rfl
  | str s => rfl
  | arr xs => rfl

theorem mem_sanitizeLogos_ne (urlOk : String → Bool)
    (fs : List (String × Json)) (p : String × Json)
    (hp : p ∈ sanitizeLogos urlOk fs) (hne : p.1 ≠ "position") :
    p ∈ fs := by
  unfold sanitizeLogos at hp
  cases hl : lookupKey "position" fs with
  | none => simp only [hl] at hp; exact hp
  | some v =>
    cases v with
    | arr xs =>
      simp only [hl] at hp
      exact mem_mapValue_ne _ _ _ p hp hne
    | null => simp only [hl] at hp; exact hp
    | bool b => simp only [hl] at hp; exact hp
    | num n => simp only [hl] at hp; exact hp
    | str t => simp only [hl] at hp; exact hp
    | obj qfs => simp only [hl] at hp; exact hp

theorem setDefaults_preprocessFields (urlOk : String → Bool)
    (fs : List (String × Json)) :
    setDefaults defaultPairs (preprocessFields urlOk fs) =
      preprocessFields urlOk fs := by
  apply setDefaults_of_isSome
  intro p hp
  have hmem := hp
  simp only [defaultPairs, nullableCollectionKeys, List.map_cons,
    List.map_nil, List.cons_append, List.nil_append, List.mem_cons,
    List.not_mem_nil, or_false] at hmem
  rcases hmem with rfl | rfl | rfl | rfl | rfl | rfl | rfl | rfl | rfl |
    rfl | rfl | rfl
  all_goals rw [lookup_preprocessFields_defaulted urlOk fs _ _
    (by decide) (by decide) (by rfl)]
  all_goals rfl

theorem fillProjects_preprocessFields (urlOk : String → Bool)
    (fs : List (String × Json)) :
    fillProjects (preprocessFields urlOk fs) = preprocessFields urlOk fs := by
  have hproj : lookupKey "projects" (preprocessFields urlOk fs) =
      lookupKey "projects" (fillProjects (setDefaults defaultPairs fs)) :=
    lookup_sanitizeLogos_ne urlOk _ _ (by decide)
  cases hpx : lookupKey "projects" (setDefaults defaultPairs fs) with
  | none =>
    have hY : fillProjects (setDefaults defaultPairs fs) =
        setDefaults defaultPairs fs ++ [("projects", defaultProjects)] := by
      unfold fillProjects
      simp only [hpx]
    have hlook : lookupKey "projects" (preprocessFields urlOk fs) =
        some defaultProjects := by
      rw [hproj, hY, lookupKey_append]
      simp only [hpx]
      rfl
    have hocc : ∀ p ∈ preprocessFields urlOk fs,
        p.1 = "projects" → p.2 = defaultProjects := by
      intro p hp hk
      have hp2 : p ∈ fillProjects (setDefaults defaultPairs fs) :=
        mem_sanitizeLogos_ne urlOk _ p hp (by rw [hk]; decide)
      rw [hY] at hp2
      rcases List.mem_append.mp hp2 with hmem | hmem
      · exact absurd hk (lookupKey_none_forall _ _ hpx p hmem)
      · rw [List.mem_singleton.mp hmem]
    unfold fillProjects
    simp only [hlook]
    show mapValue "projects"
        (Json.obj (fillProjectsInner [("total", Json.num 0),
          ("items", Json.null)])) (preprocessFields urlOk fs) = _
    have hfill : fillProjectsInner [("total", Json.num 0),
        ("items", Json.null)] = [("total", Json.num 0), ("items", Json.null)] :=
      rfl
    rw [hfill]
    exact mapValue_id _ _ _ hocc
  | some v =>
    cases v with
    | obj qfs =>
      have hY : fillProjects (setDefaults defaultPairs fs) =
          mapValue "projects" (Json.obj (fillProjectsInner qfs))
            (setDefaults defaultPairs fs) := by
        unfold fillProjects
        simp only [hpx]
      have hlook : lookupKey "projects" (preprocessFields urlOk fs) =
          some (Json.obj (fillProjectsInner qfs)) := by
        rw [hproj, hY, lookupKey_mapValue_self, hpx]
        rfl
      have hocc : ∀ p ∈ preprocessFields urlOk fs,
          p.1 = "projects" → p.2 = Json.obj (fillProjectsInner qfs) := by
        intro p hp hk
        have hp2 : p ∈ fillProjects (setDefaults defaultPairs fs) :=
          mem_sanitizeLogos_ne urlOk _ p hp (by rw [hk]; decide)
        rw [hY] at hp2
        exact mapValue_all _ _ _ p hp2 hk
      unfold fillProjects
      simp only [hlook, fillProjectsInner_idem]
      exact mapValue_id _ _ _ hocc
    | null =>
      have hY : fillProjects (setDefaults defaultPairs fs) =
          setDefaults defaultPairs fs := by
        unfold fillProjects
        simp only [hpx]
      have hlook : lookupKey "projects" (preprocessFields urlOk fs) =
          some Json.null := by rw [hproj, hY, hpx]
      unfold fillProjects
      simp only [hlook]
    | bool b =>
      have hY : fillProjects (setDefaults defaultPairs fs) =
          setDefaults defaultPairs fs := by
        unfold fillProjects
        simp only [hpx]
      have hlook : lookupKey "projects" (preprocessFields urlOk fs) =
          some (Json.bool b) := by rw [hproj, hY, hpx]
      unfold fillProjects
      simp only [hlook]
    | num n =>
      have hY : fillProjects (setDefaults defaultPairs fs) =
          setDefaults defaultPairs fs := by
        unfold fillProjects
        simp only [hpx]
      have hlook : lookupKey "projects" (preprocessFields urlOk fs) =
          some (Json.num n) := by rw [hproj, hY, hpx]
      unfold fillProjects
      simp only [hlook]
    | str t =>
      have hY : fillProjects (setDefaults defaultPairs fs) =
          setDefaults defaultPairs fs := by
        unfold fillProjects
        simp only [hpx]
      have hlook : lookupKey "projects" (preprocessFields urlOk fs) =
          some (Json.str t) := by rw [hproj, hY, hpx]
      unfold fillProjects
      simp only [hlook]
    | arr xs =>
      have hY : fillProjects (setDefaults defaultPairs fs) =
          setDefaults defaultPairs fs := by
        unfold fillProjects
        simp only [hpx]
      have hlook : lookupKey "projects" (preprocessFields urlOk fs) =
          some (Json.arr xs) := by rw [hproj, hY, hpx]
      unfold fillProjects
      simp only [hlook]

theorem sanitizeLogos_idem (urlOk : String → Bool)
    (fs : List (String × Json)) :
    sanitizeLogos urlOk (sanitizeLogos urlOk fs) = sanitizeLogos urlOk fs := by
  cases hl : lookupKey "position" fs with
  | none =>
    have h : sanitizeLogos urlOk fs = fs := by
      unfold sanitizeLogos
      simp only [hl]
    rw [h, h]
  | some v =>
    cases v with
    | arr xs =>
      have h : sanitizeLogos urlOk fs =
          mapValue "position" (Json.arr (xs.map (sanitizePosition urlOk)))
            fs := by
        unfold sanitizeLogos
        simp only [hl]
      rw [h]
      have hv : lookupKey "position"
          (mapValue "position"
            (Json.arr (xs.map (sanitizePosition urlOk))) fs) =
          some (Json.arr (xs.map (sanitizePosition urlOk))) := by
        rw [lookupKey_mapValue_self, hl]
        rfl
      unfold sanitizeLogos
      simp only [hv]
      have hmap : (xs.map (sanitizePosition urlOk)).map
          (sanitizePosition urlOk) = xs.map (sanitizePosition urlOk) := by
        rw [List.map_map]
        exact List.map_congr_left (fun x _ => sanitizePosition_idem urlOk x)
      rw [hmap, mapValue_mapValue]
    | null =>
      have h : sanitizeLogos urlOk fs = fs := by
        unfold sanitizeLogos
        simp only [hl]
      rw [h, h]
    | bool b =>
      have h : sanitizeLogos urlOk fs = fs := by
        unfold sanitizeLogos
        simp only [hl]
      rw [h, h]
    | num n =>
      have h : sanitizeLogos urlOk fs = fs := by
        unfold sanitizeLogos
        simp only [hl]
      rw [h, h]
    | str t =>
      have h : sanitizeLogos urlOk fs = fs := by
        unfold sanitizeLogos
        simp only [hl]
      rw [h, h]
    | obj qfs =>
      have h : sanitizeLogos urlOk fs = fs := by
        unfold sanitizeLogos
        simp only [hl]
      rw [h, h]

theorem sanitizeLogos_preprocessFields (urlOk : String → Bool)
    (fs : List (String × Json)) :
    sanitizeLogos urlOk (preprocessFields urlOk fs) =
      preprocessFields urlOk fs := by
  rw [preprocessFields]
  exact sanitizeLogos_idem urlOk _

/-- C8: the preprocessing stage is idempotent — applying the §4.2
transform (boolean, collection, count and projects defaulting plus
per-position logo sanitization) to its own output returns that output
unchanged. -/
theorem preprocess_idempotent (urlOk : String → Bool) (j : Json) :
    preprocess urlOk (preprocess urlOk j) = preprocess urlOk j := by
  cases j with
  | obj fs =>
    have h : preprocessFields urlOk (preprocessFields urlOk fs) =
        preprocessFields urlOk fs := by
      conv_lhs => rw [preprocessFields]
      rw [setDefaults_preprocessFields, fillProjects_preprocessFields]
      exact sanitizeLogos_preprocessFields urlOk fs
    calc preprocess urlOk (preprocess urlOk (Json.obj fs))
        = Json.obj (preprocessFields urlOk (preprocessFields urlOk fs)) :=
          rfl
      _ = Json.obj (preprocessFields urlOk fs) := by rw [h]
      _ = preprocess urlOk (Json.obj fs) := rfl
  | null => rfl
  | bool b => rfl
  | num n => rfl
  | str t => rfl
  | arr xs => rfl

theorem validateProfile_error_nonempty (urlOk : String → Bool) (j : Json)
    (es : List Issue) (h : validateProfile urlOk j = .error es) :
    es ≠ [] := by
  unfold validateProfile vObjectG at h
  cases j with
  | obj fs =>
    cases he : objErrs (profileFields.map (toSpecG urlOk)) fs with
    | nil =>
      simp only [he] at h
      exact Except.noConfusion h
    | cons e rest =>
      simp only [he] at h
      injection h with h2
      rw [← h2]
      simp
  | null => injection h with h2; rw [← h2]; simp [invalidType]
  | bool b => injection h with h2; rw [← h2]; simp [invalidType]
  | num n => injection h with h2; rw [← h2]; simp [invalidType]
  | str t => injection h with h2; rw [← h2]; simp [invalidType]
  | arr xs => injection h with h2; rw [← h2]; simp [invalidType]

/-- C5: whenever schema validation of the preprocessed object fails, the
route returns (never throws — it is a total function into a discriminated
result) the failure value whose wire shape is exactly
`error = "Validation failed"`, `details` = the complete, non-empty issue
list, and `rawData` = the preprocessed object. -/
theorem validation_failure_wire_shape (urlOk : String → Bool) (raw : Json)
    (issues : List Issue)
    (h : validateProfile urlOk (preprocess urlOk raw) = .error issues) :
    handleProfileData urlOk raw =
      .error { error := "Validation failed", details := issues,
               rawData := preprocess urlOk raw } ∧
    issues ≠ [] := by
  constructor
  · unfold handleProfileData
    simp only [h]
  · exact validateProfile_error_nonempty urlOk _ issues h

/-- Witness for C5 at a concrete failing raw object (a string where the
strict boolean `isOpenToWork` is required). -/
theorem validation_failure_wire_shape_witness :
    handleProfileData demoUrlOk
        (Json.obj [("isOpenToWork", Json.str "x")]) =
      .error { error := "Validation failed",
               details := [⟨[.key "isOpenToWork"], "invalid_type"⟩],
               rawData := preprocess demoUrlOk
                 (Json.obj [("isOpenToWork", Json.str "x")]) } ∧
    ([⟨[.key "isOpenToWork"], "invalid_type"⟩] : List Issue) ≠ [] :=
  validation_failure_wire_shape demoUrlOk
    (Json.obj [("isOpenToWork", Json.str "x")])
    [⟨[.key "isOpenToWork"], "invalid_type"⟩] (by rfl)

end GitrollChat
